import Mathlib

/-!
# Verification of the incremental Slack → Micro.blog sync pipeline

Shallow embedding of `scripts/sync-bookmarks-to-microblog.js` and
`scripts/sync-books-to-microblog.js` (plus the shared `parseBookFromMessage`
of `fetch-reading.js`), with theorems settling the testable properties of
the specification: idempotence, partial-failure isolation, abort semantics,
monotonic state growth, message filtering, extraction/parsing contracts,
in-run deduplication, and state loading.

Modelling conventions:
* JavaScript strings are Lean `String`s; `s.length` in JS counts UTF-16 code
  units, modelled by `jsLength`.
* The regexes of the scripts are embedded as executable character-list
  scanners that mirror the backtracking behaviour of the JS regex engine on
  the concrete patterns used (documented at each definition).
* Network effects are parameters: the Slack response is a value of
  `UpstreamResponse`, and each publish call is an oracle `pub` telling
  whether the destination accepted the item (a thrown error in JS = `false`).
  Within one run the oracle is a function of the item, matching the scripts,
  which make exactly one attempt per item per run.
* A thrown exception escaping `main` is modelled by `Except.error`; the
  state file is rewritten exactly when `main` returns `Except.ok`, and the
  returned state is the document passed to `saveState`.
-/

/-- UTF-16 length of one character, as JS `String.prototype.length` counts it. -/
def utf16Size (c : Char) : Nat :=
  if c.val ≥ 0x10000 then 2 else 1

/-- JS string length (UTF-16 code units) of a character list. -/
def jsLength (s : List Char) : Nat :=
  (s.map utf16Size).sum

/-- ASCII lowercasing, as used by the case-insensitive regex flags and by
`String.prototype.toLowerCase` on the ASCII inputs the scripts handle. -/
def jsToLower (c : Char) : Char :=
  if 'A' ≤ c ∧ c ≤ 'Z' then Char.ofNat (c.toNat + 32) else c

/-- The JS `\s` / `trim` whitespace set (WhiteSpace ∪ LineTerminator). -/
def isJsWs (c : Char) : Bool :=
  c = ' ' ∨ c = '\t' ∨ c = '\n' ∨ c = '\r' ∨
  c.val = 0x0b ∨ c.val = 0x0c ∨ c.val = 0xa0 ∨ c.val = 0x1680 ∨
  (0x2000 ≤ c.val ∧ c.val ≤ 0x200a) ∨ c.val = 0x2028 ∨ c.val = 0x2029 ∨
  c.val = 0x202f ∨ c.val = 0x205f ∨ c.val = 0x3000 ∨ c.val = 0xfeff

/-- What `.` matches in a JS regex without the `s` flag: any character except
a line terminator. -/
def isDotChar (c : Char) : Bool :=
  ¬ (c = '\n' ∨ c = '\r' ∨ c.val = 0x2028 ∨ c.val = 0x2029)

/-- Whether the first list is an initial segment of the second. -/
def leadMatch : List Char → List Char → Bool
  | [], _ => true
  | _ :: _, [] => false
  | a :: as, b :: bs => a = b ∧ leadMatch as bs

/-- Whether `needle` occurs as a contiguous run anywhere in the haystack. -/
def subSearch (needle : List Char) : List Char → Bool
  | [] => needle.isEmpty
  | c :: rest => leadMatch needle (c :: rest) ∨ subSearch needle rest

/-- JS `String.prototype.includes(needle)`: substring test. -/
def jsIncludes (needle s : String) : Bool :=
  subSearch needle.data s.data

/-- JS `String.prototype.trim()`. -/
def jsTrim (s : List Char) : List Char :=
  ((s.dropWhile isJsWs).reverse.dropWhile isJsWs).reverse

/-- A Slack message as consumed by the scripts: the fields actually read are
`text` (possibly absent, hence `msg.text || ''`), `bot_id`, `thread_ts` and
`subtype`. -/
structure RawMessage where
  text : Option String
  bot_id : Option String
  thread_ts : Option String
  subtype : Option String
deriving DecidableEq, Repr

/-- On-disk condition of the state file as seen by `loadState`:
absent (`fs.existsSync` is false), unreadable (`readFileSync` throws),
not valid JSON (`JSON.parse` throws), or a valid persisted state. -/
inductive DiskFile (α : Type) where
  | absent : DiskFile α
  | unreadable : DiskFile α
  | invalidJson : DiskFile α
  | valid : α → DiskFile α
deriving DecidableEq, Repr

/-- The body of `loadState`'s try block: `Except.error` is a thrown exception
(read or parse failure), `Except.ok none` the fall-through when the file does
not exist, `Except.ok (some s)` a successful read-and-parse. -/
def tryLoad {α : Type} : DiskFile α → Except String (Option α)
  | .absent => .ok none
  | .unreadable => .error "EACCES"
  | .invalidJson => .error "SyntaxError: Unexpected token"
  | .valid s => .ok (some s)

/-- `loadState()` of both sync scripts: try to read and parse the state file,
catching any exception; return the fresh default when nothing was loaded. -/
def loadState {α : Type} (d : DiskFile α) (fresh : α) : α :=
  match tryLoad d with
  | .ok (some s) => s
  | .ok none => fresh
  | .error _ => fresh

/-- Persisted state of the bookmark sync: `microblog-bookmarks-state.json`. -/
structure BookmarkState where
  syncedUrls : List String
  lastSync : Option String
deriving DecidableEq, Repr

/-- Persisted state of the book sync: `microblog-books-state.json`.
`syncedBooks` holds identity keys (lowercased `title|author`). -/
structure BooksState where
  syncedBooks : List String
  lastSync : Option String
deriving DecidableEq, Repr

/-- `loadState()` of sync-bookmarks-to-microblog.js. -/
def loadStateBookmarks (d : DiskFile BookmarkState) : BookmarkState :=
  loadState d { syncedUrls := [], lastSync := none }

/-- `loadState()` of sync-books-to-microblog.js. -/
def loadStateBooks (d : DiskFile BooksState) : BooksState :=
  loadState d { syncedBooks := [], lastSync := none }

/-- Outcome of the Slack `conversations.history` call as material to the
scripts: `malformed` when `fetch` rejects or `response.json()` throws
(malformed payload), otherwise a parsed body with its `ok` flag and optional
`messages` array. -/
inductive UpstreamResponse where
  | malformed : UpstreamResponse
  | api : Bool → Option (List RawMessage) → UpstreamResponse

/-- `fetchSlackMessages()` (identical in both sync scripts): a malformed
payload propagates as a thrown error; a parsed body with `ok: false` is
logged and yields the empty message list; otherwise `data.messages || []`. -/
def fetchSlackMessages : UpstreamResponse → Except String (List RawMessage)
  | .malformed => .error "SyntaxError: Unexpected token"
  | .api ok msgs => if ok then .ok (msgs.getD []) else .ok []

/-- The `https?:\/\/` part of the URL regex (case-sensitive): splits off the
matched protocol characters. -/
def httpProtoSplit : List Char → Option (List Char × List Char)
  | 'h' :: 't' :: 't' :: 'p' :: 's' :: ':' :: '/' :: '/' :: rest =>
      some (['h', 't', 't', 'p', 's', ':', '/', '/'], rest)
  | 'h' :: 't' :: 't' :: 'p' :: ':' :: '/' :: '/' :: rest =>
      some (['h', 't', 't', 'p', ':', '/', '/'], rest)
  | _ => none

/-- Characters allowed by `[^>|]` in the URL body. -/
def urlBodyChar (c : Char) : Bool :=
  ¬ (c = '>' ∨ c = '|')

/-- Attempt of the regex `<(https?:\/\/[^>|]+)(?:\|([^>]+))?>` at a position
just after a `<`: returns the first capture (the URL) and the characters
after the match.  The optional label group `([^>]+)` is consumed when
present but its capture is never read by the script, so it is not returned.
The greedy character classes cannot backtrack usefully here because the
characters they give back can never match the required `|`, `>` that follow,
so the scan below is exactly the regex engine's behaviour. -/
def tryLink (s : List Char) : Option (String × List Char) :=
  match httpProtoSplit s with
  | none => none
  | some (proto, s1) =>
    let body := s1.takeWhile urlBodyChar
    let s2 := s1.dropWhile urlBodyChar
    if body.isEmpty then none else
    match s2 with
    | '>' :: s3 => some (String.mk (proto ++ body), s3)
    | '|' :: s3 =>
      let lbl := s3.takeWhile (fun c => ¬ c = '>')
      let s4 := s3.dropWhile (fun c => ¬ c = '>')
      if lbl.isEmpty then none else
      match s4 with
      | '>' :: s5 => some (String.mk (proto ++ body), s5)
      | _ => none
    | _ => none

/-- The `while ((match = urlRegex.exec(text)) !== null)` loop: scan the text
left to right; after a match, resume after the match (JS advances
`lastIndex` to the end of the match); after a failed attempt at a `<`,
resume one character later.  Structural recursion is obtained with a fuel
argument; `scanUrls` supplies enough fuel, since every step consumes at
least one character. -/
def scanUrlsFuel : Nat → List Char → List String
  | 0, _ => []
  | _ + 1, [] => []
  | fuel + 1, c :: rest =>
    if c = '<' then
      match tryLink rest with
      | some (url, after) => url :: scanUrlsFuel fuel after
      | none => scanUrlsFuel fuel rest
    else
      scanUrlsFuel fuel rest

/-- All first captures of the URL regex over one message text, in order. -/
def scanUrls (s : List Char) : List String :=
  scanUrlsFuel s.length s

/-- The `urls` array of `extractUrls` before the final `new Set` dedup: for
each message, every regex capture from `msg.text || ''` except those skipped
by `url.includes('slack.com')`. -/
def rawUrls : List RawMessage → List String
  | [] => []
  | m :: rest =>
      ((scanUrls (m.text.getD "").data).filter fun u => !jsIncludes "slack.com" u)
        ++ rawUrls rest

/-- First-occurrence deduplication with a seen accumulator, keyed by `key`:
the JS pattern of a `Set` of seen keys guarding the push.  `[...new Set l]`
is the instance with `key = id` and no keys seen yet, since JS `Set`
iteration order is insertion order. -/
def dedupFirstBy {α : Type} (key : α → String) : List α → List String → List α
  | [], _ => []
  | a :: l, seen =>
    if key a ∈ seen then dedupFirstBy key l seen
    else a :: dedupFirstBy key l (key a :: seen)

/-- `[...new Set(urls)]`: first-occurrence dedup of a string list. -/
def dedupFirst (l : List String) : List String :=
  dedupFirstBy id l []

/-- `extractUrls(messages)` of sync-bookmarks-to-microblog.js. -/
def extractUrls (messages : List RawMessage) : List String :=
  dedupFirst (rawUrls messages)

/-- The form body built by `createMicroblogBookmark(url)`: the full content
of the `URLSearchParams` POSTed to the Micropub endpoint. -/
def createMicroblogBookmarkParams (url : String) : List (String × String) :=
  [("h", "entry"), ("bookmark-of", url)]

/-- The per-item publish loop of the bookmark `main`: each URL is attempted
once; on success (`pub url = true`) it is appended to `state.syncedUrls`,
on a thrown error it is logged and skipped.  Returns the appended suffix in
attempt order. -/
def publishLoop (pub : String → Bool) : List String → List String
  | [] => []
  | url :: rest =>
    if pub url then url :: publishLoop pub rest else publishLoop pub rest

/-- Summary of a completed run: the state passed to `saveState` and the
`synced` counter. -/
structure RunOutcome where
  state : BookmarkState
  synced : Nat
deriving DecidableEq, Repr

/-- `main()` of sync-bookmarks-to-microblog.js from the state load onward
(configuration is assumed present; the pre-flight exits are out of scope of
the modelled run).  A thrown fetch error escapes as `Except.error` before
any state mutation; otherwise the run extracts, diffs against
`state.syncedUrls`, attempts every new URL, then sets `lastSync` and saves. -/
def mainBookmarks (state0 : BookmarkState) (upstream : UpstreamResponse)
    (pub : String → Bool) (now : String) : Except String RunOutcome :=
  match fetchSlackMessages upstream with
  | .error e => .error e
  | .ok messages =>
    let urls := extractUrls messages
    let newUrls := urls.filter fun url => !state0.syncedUrls.contains url
    let successes := publishLoop pub newUrls
    .ok { state := { syncedUrls := state0.syncedUrls ++ successes,
                     lastSync := some now },
          synced := successes.length }

/-- A parsed book candidate: `{ title, author }` with `author: null` when the
message had no ` by ` separator. -/
structure Book where
  title : String
  author : Option String
deriving DecidableEq, Repr

/-- Backtracking for the tail `\s+(.+)$` of the book regex, after the
whitespace run has been consumed greedily: `wrev` is the consumed run
reversed (longest attempt first); on failure of `(.+)$` one whitespace
character is given back to the dot-matched part.  Returns the second
capture (the author). -/
def authorBT : List Char → List Char → Option (List Char)
  | [], _ => none
  | c :: wrev, rest =>
    if rest ≠ [] ∧ rest.all isDotChar then some rest
    else authorBT wrev (c :: rest)

/-- `\s+(.+)$` at a position: greedy whitespace, then the author capture. -/
def matchAuthor (r : List Char) : Option (List Char) :=
  authorBT (r.takeWhile isJsWs).reverse (r.dropWhile isJsWs)

/-- The literal `by` (case-insensitive, `/i` flag) followed by `\s+(.+)$`. -/
def tryBy : List Char → Option (List Char)
  | b :: y :: rest =>
    if jsToLower b = 'b' ∧ jsToLower y = 'y' then matchAuthor rest else none
  | _ => none

/-- Backtracking for `\s+by\s+(.+)$`: the first whitespace run is consumed
greedily and given back one character at a time while the continuation
fails (the given-back characters are whitespace, so `by` can in fact never
match there, but the engine tries). -/
def byBT : List Char → List Char → Option (List Char)
  | [], _ => none
  | c :: wrev, rest =>
    match tryBy rest with
    | some a => some a
    | none => byBT wrev (c :: rest)

/-- The part of the book regex after the lazy title: `\s+by\s+(.+)$`. -/
def afterTitle (r : List Char) : Option (List Char) :=
  byBT (r.takeWhile isJsWs).reverse (r.dropWhile isJsWs)

/-- The lazy title group `^(.+?)` of `^(.+?)\s+by\s+(.+)$`: the title is
extended one dot-matched character at a time, and after each extension the
rest of the pattern is attempted; the first success wins, so the shortest
viable title is captured.  A character `.` cannot match stops the search. -/
def byMatchGo (tacc : List Char) : List Char → Option (List Char × List Char)
  | [] => none
  | c :: rest =>
    if isDotChar c then
      match afterTitle rest with
      | some a => some (tacc ++ [c], a)
      | none => byMatchGo (tacc ++ [c]) rest
    else none

/-- `cleaned.match(/^(.+?)\s+by\s+(.+)$/i)`: the (title, author) captures. -/
def byMatch (s : List Char) : Option (List Char × List Char) :=
  byMatchGo [] s

/-- One `.replace(/^<phrase>\s*‍/i, '')` step: when the text starts with the
phrase (ASCII case-insensitively), the phrase and the following whitespace
run are removed; otherwise the text is unchanged.  `pat` is in lowercase. -/
def stripLeadCI (pat : List Char) (s : List Char) : List Char :=
  if (s.take pat.length).map jsToLower = pat then
    (s.drop pat.length).dropWhile isJsWs
  else s

/-- `.replace(/^📚\s*‍/i, '')`: remove a leading book emoji (U+1F4DA) and the
following whitespace run. -/
def stripBookEmoji (s : List Char) : List Char :=
  match s with
  | c :: rest => if c = Char.ofNat 0x1F4DA then rest.dropWhile isJsWs else s
  | [] => s

/-- `parseBookFromMessage(text)`, identical in sync-books-to-microblog.js and
fetch-reading.js: strip the known leading prefixes in source order, trim,
split on the first (lazy) case-insensitive ` by ` separator; with no
separator the whole remainder is a title-only candidate provided its JS
length is strictly between 0 and 200; otherwise `null`. -/
def parseBookFromMessage (text : String) : Option Book :=
  let cleaned := jsTrim (stripLeadCI "now reading:".data
    (stripLeadCI "reading:".data
      (stripLeadCI "currently reading:".data
        (stripBookEmoji text.data))))
  match byMatch cleaned with
  | some (t, a) =>
      some { title := String.mk (jsTrim t), author := some (String.mk (jsTrim a)) }
  | none =>
      if 0 < jsLength cleaned ∧ jsLength cleaned < 200 then
        some { title := String.mk cleaned, author := none }
      else none

/-- The identity key of a book candidate:
`` `${book.title.toLowerCase()}|${(book.author || '').toLowerCase()}` ``. -/
def bookKey (b : Book) : String :=
  String.mk (b.title.data.map jsToLower) ++ "|"
    ++ String.mk ((b.author.getD "").data.map jsToLower)

/-- The candidates of the `extractBooks` loop before its seen-key dedup: per
message, skip texts embedding a URL, bot messages and thread replies, and
system subtypes — in that source order — then parse. -/
def parsedBooks : List RawMessage → List Book
  | [] => []
  | m :: rest =>
    let text := m.text.getD ""
    if jsIncludes "http://" text || jsIncludes "https://" text then parsedBooks rest
    else if m.bot_id.isSome || m.thread_ts.isSome then parsedBooks rest
    else if m.subtype.isSome then parsedBooks rest
    else
      match parseBookFromMessage text with
      | none => parsedBooks rest
      | some b => b :: parsedBooks rest

/-- `extractBooks(messages)` with its `seenTitles` set made explicit: a book
is pushed only when its identity key is unseen, and the key is recorded on
push. -/
def extractBooksGo (seenTitles : List String) : List RawMessage → List Book
  | [] => []
  | m :: rest =>
    let text := m.text.getD ""
    if jsIncludes "http://" text || jsIncludes "https://" text then
      extractBooksGo seenTitles rest
    else if m.bot_id.isSome || m.thread_ts.isSome then
      extractBooksGo seenTitles rest
    else if m.subtype.isSome then
      extractBooksGo seenTitles rest
    else
      match parseBookFromMessage text with
      | none => extractBooksGo seenTitles rest
      | some book =>
        if bookKey book ∈ seenTitles then extractBooksGo seenTitles rest
        else book :: extractBooksGo (bookKey book :: seenTitles) rest

/-- `extractBooks(messages)` of sync-books-to-microblog.js. -/
def extractBooks (messages : List RawMessage) : List Book :=
  extractBooksGo [] messages

/-- The per-item loop of the book `main`: `searchIsbn` never throws (it has
its own catch-all and only decorates the candidate, never its identity key),
so each iteration succeeds or fails with `addBookToMicroblog`, modelled by
the oracle `pub`; on success the identity key is appended to
`state.syncedBooks`.  Returns the appended key suffix in attempt order. -/
def booksPublishLoop (pub : Book → Bool) : List Book → List String
  | [] => []
  | b :: rest =>
    if pub b then bookKey b :: booksPublishLoop pub rest
    else booksPublishLoop pub rest

/-- Summary of a completed book-sync run. -/
structure BooksRunOutcome where
  state : BooksState
  synced : Nat
deriving DecidableEq, Repr

/-- `main()` of sync-books-to-microblog.js from the state load onward
(configuration and bookshelf resolution assumed done).  Mirrors
`mainBookmarks` with the book key as identity. -/
def mainBooks (state0 : BooksState) (upstream : UpstreamResponse)
    (pub : Book → Bool) (now : String) : Except String BooksRunOutcome :=
  match fetchSlackMessages upstream with
  | .error e => .error e
  | .ok messages =>
    let books := extractBooks messages
    let newBooks := books.filter fun b => !state0.syncedBooks.contains (bookKey b)
    let successes := booksPublishLoop pub newBooks
    .ok { state := { syncedBooks := state0.syncedBooks ++ successes,
                     lastSync := some now },
          synced := successes.length }

/-! ## Helper lemmas -/

theorem publishLoop_eq_filter (pub : String → Bool) (l : List String) :
    publishLoop pub l = l.filter pub := by
  induction l with
  | nil => rfl
  | cons a l ih => by_cases h : pub a <;> simp [publishLoop, List.filter_cons, h, ih]

theorem booksPublishLoop_eq_filter (pub : Book → Bool) (l : List Book) :
    booksPublishLoop pub l = (l.filter pub).map bookKey := by
  induction l with
  | nil => rfl
  | cons a l ih => by_cases h : pub a <;> simp [booksPublishLoop, List.filter_cons, h, ih]

theorem publishLoop_of_all_true (pub : String → Bool) (l : List String)
    (h : ∀ u ∈ l, pub u = true) : publishLoop pub l = l := by
  rw [publishLoop_eq_filter]
  exact List.filter_eq_self.mpr h

theorem booksPublishLoop_of_all_true (pub : Book → Bool) (l : List Book)
    (h : ∀ b ∈ l, pub b = true) : booksPublishLoop pub l = l.map bookKey := by
  rw [booksPublishLoop_eq_filter, List.filter_eq_self.mpr h]

theorem dedupFirstBy_sublist {α : Type} (key : α → String) (l : List α) :
    ∀ seen, List.Sublist (dedupFirstBy key l seen) l := by
  induction l with
  | nil => intro seen; simp [dedupFirstBy]
  | cons a l ih =>
    intro seen
    by_cases h : key a ∈ seen
    · rw [dedupFirstBy, if_pos h]
      exact List.Sublist.cons _ (ih seen)
    · rw [dedupFirstBy, if_neg h]
      exact List.Sublist.cons₂ _ (ih _)

theorem dedupFirstBy_filter {α : Type} (key : α → String) (k : String) (l : List α) :
    ∀ seen,
      (k ∉ seen →
        (dedupFirstBy key l seen).filter (fun b => key b = k)
          = (l.filter (fun b => key b = k)).take 1) ∧
      (k ∈ seen → (dedupFirstBy key l seen).filter (fun b => key b = k) = []) := by
  induction l with
  | nil => intro seen; simp [dedupFirstBy]
  | cons a l ih =>
    intro seen
    constructor
    · intro hk
      by_cases h : key a ∈ seen
      · have hak : ¬ key a = k := fun e => hk (e ▸ h)
        rw [dedupFirstBy, if_pos h, List.filter_cons, (ih seen).1 hk]
        simp [hak]
      · by_cases hak : key a = k
        · rw [dedupFirstBy, if_neg h, List.filter_cons, List.filter_cons,
            (ih (key a :: seen)).2 (by rw [hak]; exact List.mem_cons_self _ _)]
          simp [hak]
        · have hns : k ∉ key a :: seen := by
            intro hmem
            rcases List.mem_cons.mp hmem with h1 | h2
            · exact hak h1.symm
            · exact hk h2
          rw [dedupFirstBy, if_neg h, List.filter_cons, List.filter_cons,
            (ih (key a :: seen)).1 hns]
          simp [hak]
    · intro hk
      by_cases h : key a ∈ seen
      · rw [dedupFirstBy, if_pos h]
        exact (ih seen).2 hk
      · have hak : ¬ key a = k := fun e => h (e ▸ hk)
        rw [dedupFirstBy, if_neg h, List.filter_cons,
          (ih (key a :: seen)).2 (List.mem_cons_of_mem _ hk)]
        simp [hak]

theorem dedupFirstBy_key_nodup {α : Type} (key : α → String) (l : List α) :
    ∀ seen, ((dedupFirstBy key l seen).map key).Nodup ∧
      (∀ b ∈ dedupFirstBy key l seen, key b ∉ seen) := by
  induction l with
  | nil => intro seen; simp [dedupFirstBy]
  | cons a l ih =>
    intro seen
    by_cases h : key a ∈ seen
    · rw [dedupFirstBy, if_pos h]
      exact ih seen
    · rw [dedupFirstBy, if_neg h]
      have rec1 := (ih (key a :: seen)).1
      have rec2 := (ih (key a :: seen)).2
      refine ⟨?_, ?_⟩
      · simp only [List.map_cons, List.nodup_cons]
        refine ⟨?_, rec1⟩
        intro hmem
        rcases List.mem_map.mp hmem with ⟨b, hb, hkb⟩
        exact rec2 b hb (hkb ▸ List.mem_cons_self _ _)
      · intro b hb
        rcases List.mem_cons.mp hb with rfl | hb'
        · exact h
        · exact fun hs => rec2 b hb' (List.mem_cons_of_mem _ hs)

theorem mem_dedupFirstBy_id (l : List String) :
    ∀ seen a, a ∈ dedupFirstBy id l seen ↔ a ∈ l ∧ a ∉ seen := by
  induction l with
  | nil => intro seen a; simp [dedupFirstBy]
  | cons b l ih =>
    intro seen a
    rw [dedupFirstBy]
    simp only [id_eq]
    by_cases h : b ∈ seen
    · rw [if_pos h, ih]
      simp only [List.mem_cons]
      constructor
      · rintro ⟨h1, h2⟩; exact ⟨Or.inr h1, h2⟩
      · rintro ⟨h1 | h1, h2⟩
        · exact absurd (h1 ▸ h) h2
        · exact ⟨h1, h2⟩
    · rw [if_neg h]
      simp only [List.mem_cons, ih]
      constructor
      · rintro (rfl | ⟨h1, h2⟩)
        · exact ⟨Or.inl rfl, h⟩
        · exact ⟨Or.inr h1, fun hs => h2 (Or.inr hs)⟩
      · rintro ⟨rfl | h1, h2⟩
        · exact Or.inl rfl
        · by_cases hb : a = b
          · exact Or.inl hb
          · refine Or.inr ⟨h1, fun hs => ?_⟩
            rcases hs with h3 | h3
            · exact hb h3
            · exact h2 h3

theorem nodup_dedupFirst (l : List String) : (dedupFirst l).Nodup := by
  have h := (dedupFirstBy_key_nodup id l []).1
  rwa [List.map_id] at h

theorem mem_dedupFirst (l : List String) (a : String) :
    a ∈ dedupFirst l ↔ a ∈ l := by
  rw [dedupFirst, mem_dedupFirstBy_id]
  simp

theorem mem_rawUrls (msgs : List RawMessage) (u : String) :
    u ∈ rawUrls msgs ↔ ∃ m, m ∈ msgs ∧ u ∈ scanUrls (m.text.getD "").data ∧
      jsIncludes "slack.com" u = false := by
  induction msgs with
  | nil => simp [rawUrls]
  | cons m rest ih =>
    simp only [rawUrls, List.mem_append, List.mem_filter, ih, List.mem_cons]
    constructor
    · rintro (⟨hs, hf⟩ | ⟨m', hm', hs, hf⟩)
      · exact ⟨m, Or.inl rfl, hs, by simpa using hf⟩
      · exact ⟨m', Or.inr hm', hs, hf⟩
    · rintro ⟨m', rfl | hm', hs, hf⟩
      · exact Or.inl ⟨hs, by simpa using hf⟩
      · exact Or.inr ⟨m', hm', hs, hf⟩

theorem extractUrls_nodup (msgs : List RawMessage) : (extractUrls msgs).Nodup :=
  nodup_dedupFirst _

theorem mem_extractUrls (msgs : List RawMessage) (u : String) :
    u ∈ extractUrls msgs ↔ u ∈ rawUrls msgs :=
  mem_dedupFirst _ _

theorem extractBooksGo_eq (msgs : List RawMessage) :
    ∀ seen, extractBooksGo seen msgs = dedupFirstBy bookKey (parsedBooks msgs) seen := by
  induction msgs with
  | nil => intro seen; rfl
  | cons m rest ih =>
    intro seen
    cases h1 : jsIncludes "http://" (m.text.getD "") with
    | true => simp [extractBooksGo, parsedBooks, h1, ih]
    | false =>
      cases h2 : jsIncludes "https://" (m.text.getD "") with
      | true => simp [extractBooksGo, parsedBooks, h1, h2, ih]
      | false =>
        cases h3 : m.bot_id.isSome with
        | true => simp [extractBooksGo, parsedBooks, h1, h2, h3, ih]
        | false =>
          cases h4 : m.thread_ts.isSome with
          | true => simp [extractBooksGo, parsedBooks, h1, h2, h3, h4, ih]
          | false =>
            cases h5 : m.subtype.isSome with
            | true => simp [extractBooksGo, parsedBooks, h1, h2, h3, h4, h5, ih]
            | false =>
              cases hp : parseBookFromMessage (m.text.getD "") with
              | none => simp [extractBooksGo, parsedBooks, h1, h2, h3, h4, h5, hp, ih]
              | some b =>
                by_cases h6 : bookKey b ∈ seen
                · simp [extractBooksGo, parsedBooks, dedupFirstBy, h1, h2, h3, h4, h5,
                    hp, h6, ih]
                · simp [extractBooksGo, parsedBooks, dedupFirstBy, h1, h2, h3, h4, h5,
                    hp, h6, ih]

theorem scanUrlsFuel_nil (fuel : Nat) : scanUrlsFuel fuel [] = [] := by
  cases fuel <;> rfl

theorem takeWhile_all_stop (p : Char → Bool) (xs : List Char) (y : Char) (ys : List Char)
    (hxs : ∀ c ∈ xs, p c = true) (hy : p y = false) :
    (xs ++ y :: ys).takeWhile p = xs := by
  induction xs with
  | nil => simp [List.takeWhile_cons, hy]
  | cons x xs ih =>
    rw [List.cons_append, List.takeWhile_cons, hxs x (List.mem_cons_self _ _),
      ih fun c hc => hxs c (List.mem_cons_of_mem _ hc)]
    simp

theorem dropWhile_all_stop (p : Char → Bool) (xs : List Char) (y : Char) (ys : List Char)
    (hxs : ∀ c ∈ xs, p c = true) (hy : p y = false) :
    (xs ++ y :: ys).dropWhile p = y :: ys := by
  induction xs with
  | nil => simp [List.dropWhile_cons, hy]
  | cons x xs ih =>
    rw [List.cons_append, List.dropWhile_cons, hxs x (List.mem_cons_self _ _)]
    simpa using ih fun c hc => hxs c (List.mem_cons_of_mem _ hc)

/-! ## Claim theorems -/

/-- Claim C9: state load is total and never fatal.  For every bad on-disk
condition of the state file — absent, unreadable, or containing
corrupt/unparseable JSON — `loadState` of both scripts returns the fresh
default state (empty synced-key list, null `lastSync`) instead of raising,
so such a file never aborts a run. -/
theorem claim9_loadState_total_never_fatal :
    loadStateBookmarks .absent = { syncedUrls := [], lastSync := none } ∧
    loadStateBookmarks .unreadable = { syncedUrls := [], lastSync := none } ∧
    loadStateBookmarks .invalidJson = { syncedUrls := [], lastSync := none } ∧
    loadStateBooks .absent = { syncedBooks := [], lastSync := none } ∧
    loadStateBooks .unreadable = { syncedBooks := [], lastSync := none } ∧
    loadStateBooks .invalidJson = { syncedBooks := [], lastSync := none } :=
  ⟨rfl, rfl, rfl, rfl, rfl, rfl⟩

/-- Claim C3 counterexample: an upstream response with a non-ok status does
NOT abort the run — `fetchSlackMessages` logs the error and returns the
empty list, so the run completes, rewrites the state file and advances
`lastSync`, contradicting the claim that on a non-ok status the run ends as
Aborted with the state file untouched. -/
theorem claim3_counterexample :
    mainBookmarks { syncedUrls := ["https://example.com/x"], lastSync := none }
      (.api false none) (fun _ => true) "2026-01-02T00:00:00Z"
    = .ok { state := { syncedUrls := ["https://example.com/x"],
                       lastSync := some "2026-01-02T00:00:00Z" },
            synced := 0 } := by
  rfl

/-- Claim C3 amended: only a malformed upstream payload (the body fails to
parse, so `response.json()` throws) aborts the run before any state
mutation, with no candidate published and the state file not rewritten.  A
parsed response with a non-ok status is instead treated as an empty message
list: the run publishes nothing and appends no keys, but still rewrites the
state file with `lastSync` advanced. -/
theorem claim3_fetch_failure_semantics :
    (∀ (s0 : BookmarkState) (pub : String → Bool) (now : String),
      mainBookmarks s0 .malformed pub now = .error "SyntaxError: Unexpected token") ∧
    (∀ (s0 : BookmarkState) (body : Option (List RawMessage)) (pub : String → Bool)
      (now : String),
      mainBookmarks s0 (.api false body) pub now
        = .ok { state := { syncedUrls := s0.syncedUrls, lastSync := some now },
                synced := 0 }) := by
  constructor
  · intro s0 pub now
    rfl
  · intro s0 body pub now
    simp [mainBookmarks, fetchSlackMessages, extractUrls, rawUrls, dedupFirst,
      dedupFirstBy, publishLoop]

/-- Claim C4: monotonic growth of the synced-key set.  Every run that reaches
the persisting step (i.e. returns `Except.ok`, so `saveState` runs) appends
to the loaded key list and never removes or replaces a key: the persisted
key list extends the loaded one as a prefix, in both pipelines. -/
theorem claim4_synced_keys_monotonic :
    (∀ (s0 : BookmarkState) (up : UpstreamResponse) (pub : String → Bool)
      (now : String) (r : RunOutcome),
      mainBookmarks s0 up pub now = .ok r →
        ∃ t, r.state.syncedUrls = s0.syncedUrls ++ t) ∧
    (∀ (s0 : BooksState) (up : UpstreamResponse) (pub : Book → Bool)
      (now : String) (r : BooksRunOutcome),
      mainBooks s0 up pub now = .ok r →
        ∃ t, r.state.syncedBooks = s0.syncedBooks ++ t) := by
  constructor
  · intro s0 up pub now r h
    cases hf : fetchSlackMessages up with
    | error e => simp [mainBookmarks, hf] at h
    | ok messages =>
      simp only [mainBookmarks, hf] at h
      cases h
      exact ⟨_, rfl⟩
  · intro s0 up pub now r h
    cases hf : fetchSlackMessages up with
    | error e => simp [mainBooks, hf] at h
    | ok messages =>
      simp only [mainBooks, hf] at h
      cases h
      exact ⟨_, rfl⟩

/-- Claim C4 witness: a concrete run for each pipeline, with the hypothesis
discharged by evaluation. -/
theorem claim4_witness :
    (∃ t, (["https://old/x", "https://a/1"] : List String) = ["https://old/x"] ++ t) ∧
    (∃ t, (["old|", "dune|frank herbert"] : List String) = ["old|"] ++ t) := by
  constructor
  · exact claim4_synced_keys_monotonic.1
      { syncedUrls := ["https://old/x"], lastSync := none }
      (.api true (some [⟨some "<https://a/1>", none, none, none⟩]))
      (fun _ => true) "2026-01-01"
      { state := { syncedUrls := ["https://old/x", "https://a/1"],
                   lastSync := some "2026-01-01" }, synced := 1 }
      (by rfl)
  · exact claim4_synced_keys_monotonic.2
      { syncedBooks := ["old|"], lastSync := none }
      (.api true (some [⟨some "Dune by Frank Herbert", none, none, none⟩]))
      (fun _ => true) "2026-01-01"
      { state := { syncedBooks := ["old|", "dune|frank herbert"],
                   lastSync := some "2026-01-01" }, synced := 1 }
      (by rfl)

/-- Claim C10: the bookmark self-link filter is a plain substring test on
the captured URL — a capture is kept in the output exactly when some
message's text yields it and the URL string does not contain "slack.com"
anywhere; in particular a non-Slack host whose path merely mentions
slack.com is dropped, while other URLs are kept. -/
theorem claim10_slack_filter_substring :
    (∀ (msgs : List RawMessage) (u : String),
      u ∈ extractUrls msgs ↔
        (∃ m, m ∈ msgs ∧ u ∈ scanUrls (m.text.getD "").data) ∧
          jsIncludes "slack.com" u = false) ∧
    extractUrls [⟨some "see <https://example.com/slack.com-review>", none, none, none⟩]
      = [] ∧
    extractUrls [⟨some "see <https://example.com/review>", none, none, none⟩]
      = ["https://example.com/review"] := by
  refine ⟨?_, by decide, by decide⟩
  intro msgs u
  rw [mem_extractUrls, mem_rawUrls]
  constructor
  · rintro ⟨m, hm, hs, hf⟩
    exact ⟨⟨m, hm, hs⟩, hf⟩
  · rintro ⟨⟨m, hm, hs⟩, hf⟩
    exact ⟨m, hm, hs, hf⟩

theorem parsedBooks_drop_flagged (msgs : List RawMessage) :
    parsedBooks (msgs.filter fun m =>
      !(m.bot_id.isSome || m.thread_ts.isSome || m.subtype.isSome)) = parsedBooks msgs := by
  induction msgs with
  | nil => rfl
  | cons m rest ih =>
    cases hb : m.bot_id <;> cases ht : m.thread_ts <;> cases hs : m.subtype <;>
      simp at ih <;> simp [parsedBooks, List.filter_cons, hb, ht, hs, ih]

theorem rawUrls_text_only (msgs : List RawMessage) :
    rawUrls (msgs.map fun m =>
      { text := m.text, bot_id := none, thread_ts := none, subtype := none })
      = rawUrls msgs := by
  induction msgs with
  | nil => rfl
  | cons m rest ih => simp [rawUrls, ih]

/-- Claim C5 counterexample: the bookmark extractor applies none of the
skip rules — a message from a bot sender (`bot_id` set) still yields a
bookmark candidate, contradicting the claim that both extractors yield zero
candidates from bot messages. -/
theorem claim5_counterexample :
    extractUrls [{ text := some "<https://example.com/a>", bot_id := some "B0001",
                   thread_ts := none, subtype := none }]
      = ["https://example.com/a"] := by
  decide

/-- Claim C5 amended: only the book extractor applies the skip rules —
thread replies, bot senders and system subtypes contribute no candidates to
`extractBooks` (dropping such messages leaves its output unchanged) — while
the bookmark extractor reads only `msg.text` and ignores `bot_id`,
`thread_ts` and `subtype` entirely (clearing those fields leaves its output
unchanged). -/
theorem claim5_skip_rules :
    (∀ msgs : List RawMessage, extractBooks msgs =
      extractBooks (msgs.filter fun m =>
        !(m.bot_id.isSome || m.thread_ts.isSome || m.subtype.isSome))) ∧
    (∀ msgs : List RawMessage, extractUrls msgs =
      extractUrls (msgs.map fun m =>
        { text := m.text, bot_id := none, thread_ts := none, subtype := none })) := by
  constructor
  · intro msgs
    rw [extractBooks, extractBooks, extractBooksGo_eq, extractBooksGo_eq,
      parsedBooks_drop_flagged]
  · intro msgs
    rw [extractUrls, extractUrls, rawUrls_text_only]

/-- Claim C8: in-run deduplication with first occurrence winning, in both
extractors.  The extractor output is a sublist of the raw candidate stream
(attempt order preserved), and for every identity key the output keeps
exactly the first raw candidate carrying that key — `filter` by any key on
the output equals `take 1` of the same filter on the raw stream, so each key
occurs exactly once, with the first occurrence's metadata. -/
theorem claim8_in_run_dedup :
    (∀ (msgs : List RawMessage) (k : String),
      List.Sublist (extractUrls msgs) (rawUrls msgs) ∧
      (extractUrls msgs).filter (fun u => u = k)
        = ((rawUrls msgs).filter (fun u => u = k)).take 1) ∧
    (∀ (msgs : List RawMessage) (k : String),
      List.Sublist (extractBooks msgs) (parsedBooks msgs) ∧
      (extractBooks msgs).filter (fun b => bookKey b = k)
        = ((parsedBooks msgs).filter (fun b => bookKey b = k)).take 1) := by
  constructor
  · intro msgs k
    exact ⟨dedupFirstBy_sublist id (rawUrls msgs) [],
      (dedupFirstBy_filter id k (rawUrls msgs) []).1 (List.not_mem_nil k)⟩
  · intro msgs k
    rw [extractBooks, extractBooksGo_eq]
    exact ⟨dedupFirstBy_sublist bookKey (parsedBooks msgs) [],
      (dedupFirstBy_filter bookKey k (parsedBooks msgs) []).1 (List.not_mem_nil k)⟩

theorem bang_contains_iff (l : List String) (a : String) :
    (!l.contains a) = true ↔ a ∉ l := by
  simp [List.contains]

theorem map_key_filter_ne (kk : String) (l : List Book) :
    (l.filter fun b => bookKey b != kk).map bookKey
      = (l.map bookKey).filter (fun s => s != kk) := by
  induction l with
  | nil => rfl
  | cons b l ih => by_cases h : bookKey b != kk <;> simp [List.filter_cons, h, ih]

theorem map_key_filter_comm (g : String → Bool) (l : List Book) :
    (l.filter fun b => g (bookKey b)).map bookKey = (l.map bookKey).filter g := by
  induction l with
  | nil => rfl
  | cons b l ih => by_cases h : g (bookKey b) = true <;> simp [List.filter_cons, h, ih]

theorem extractBooks_keys_nodup (msgs : List RawMessage) :
    ((extractBooks msgs).map bookKey).Nodup := by
  rw [extractBooks, extractBooksGo_eq]
  exact (dedupFirstBy_key_nodup bookKey (parsedBooks msgs) []).1

/-- Claim C2: partial failure isolation.  For a run whose diffed candidate
list has the publish of exactly the k-th item fail (the destination throws
for it and accepts every other item), the persisted key list is the loaded
list followed by the keys of all other items in attempt order; the failed
item's key is absent from the persisted state, every item after the failed
one is still attempted and recorded, and the failed item is again in the
diffed candidate list of a subsequent run over the same messages (eligible
for retry).  Holds for both pipelines. -/
theorem claim2_partial_failure_isolation :
    (∀ (s0 : BookmarkState) (msgs : List RawMessage) (pub : String → Bool)
      (now : String) (k : Nat),
      let newUrls := (extractUrls msgs).filter fun u => !s0.syncedUrls.contains u
      ∀ (hk : k < newUrls.length),
      let a := newUrls.get ⟨k, hk⟩
      (∀ u ∈ newUrls, pub u = (u != a)) →
        mainBookmarks s0 (.api true (some msgs)) pub now
          = .ok { state := { syncedUrls := s0.syncedUrls ++ newUrls.erase a,
                             lastSync := some now },
                  synced := (newUrls.erase a).length } ∧
        a ∉ s0.syncedUrls ++ newUrls.erase a ∧
        a ∈ (extractUrls msgs).filter
          (fun u => !((s0.syncedUrls ++ newUrls.erase a).contains u))) ∧
    (∀ (s0 : BooksState) (msgs : List RawMessage) (pub : Book → Bool)
      (now : String) (k : Nat),
      let newBooks := (extractBooks msgs).filter fun b =>
        !s0.syncedBooks.contains (bookKey b)
      let keys := newBooks.map bookKey
      ∀ (hk : k < newBooks.length),
      let kk := bookKey (newBooks.get ⟨k, hk⟩)
      (∀ b ∈ newBooks, pub b = (bookKey b != kk)) →
        mainBooks s0 (.api true (some msgs)) pub now
          = .ok { state := { syncedBooks := s0.syncedBooks ++ keys.erase kk,
                             lastSync := some now },
                  synced := (keys.erase kk).length } ∧
        kk ∉ s0.syncedBooks ++ keys.erase kk ∧
        newBooks.get ⟨k, hk⟩ ∈ (extractBooks msgs).filter
          (fun b => !((s0.syncedBooks ++ keys.erase kk).contains (bookKey b)))) := by
  constructor
  · intro s0 msgs pub now k newUrls hk a hpub
    have hnd : newUrls.Nodup := (extractUrls_nodup msgs).filter _
    have hloop : publishLoop pub newUrls = newUrls.erase a := by
      rw [publishLoop_eq_filter, List.filter_congr hpub,
        ← hnd.erase_eq_filter a]
    have hmem : a ∈ newUrls := List.get_mem newUrls k hk
    have hsplit := List.mem_filter.mp hmem
    have ha_not_s0 : a ∉ s0.syncedUrls := (bang_contains_iff _ _).mp hsplit.2
    have ha_not_erase : a ∉ newUrls.erase a := hnd.not_mem_erase
    have ha_not_append : a ∉ s0.syncedUrls ++ newUrls.erase a := by
      rw [List.mem_append]
      rintro (h | h)
      · exact ha_not_s0 h
      · exact ha_not_erase h
    refine ⟨?_, ha_not_append, ?_⟩
    · rw [show mainBookmarks s0 (.api true (some msgs)) pub now
          = .ok { state := { syncedUrls := s0.syncedUrls ++ publishLoop pub newUrls,
                             lastSync := some now },
                  synced := (publishLoop pub newUrls).length } from rfl, hloop]
    · exact List.mem_filter.mpr
        ⟨hsplit.1, (bang_contains_iff _ _).mpr ha_not_append⟩
  · intro s0 msgs pub now k newBooks keys hk kk hpub
    have hknd : keys.Nodup := by
      have h2 : keys = ((extractBooks msgs).map bookKey).filter
          (fun s => !s0.syncedBooks.contains s) :=
        map_key_filter_comm (fun s => !s0.syncedBooks.contains s) (extractBooks msgs)
      rw [h2]
      exact (extractBooks_keys_nodup msgs).filter _
    have hloop : booksPublishLoop pub newBooks = keys.erase kk := by
      rw [booksPublishLoop_eq_filter, List.filter_congr hpub, map_key_filter_ne,
        ← hknd.erase_eq_filter kk]
    have hmem : newBooks.get ⟨k, hk⟩ ∈ newBooks := List.get_mem newBooks k hk
    have hsplit := List.mem_filter.mp hmem
    have hkk_not_s0 : kk ∉ s0.syncedBooks := (bang_contains_iff _ _).mp hsplit.2
    have hkk_keys_erase : kk ∉ keys.erase kk := hknd.not_mem_erase
    have hkk_not_append : kk ∉ s0.syncedBooks ++ keys.erase kk := by
      rw [List.mem_append]
      rintro (h | h)
      · exact hkk_not_s0 h
      · exact hkk_keys_erase h
    refine ⟨?_, hkk_not_append, ?_⟩
    · rw [show mainBooks s0 (.api true (some msgs)) pub now
          = .ok { state := { syncedBooks := s0.syncedBooks ++ booksPublishLoop pub newBooks,
                             lastSync := some now },
                  synced := (booksPublishLoop pub newBooks).length } from rfl, hloop]
    · exact List.mem_filter.mpr
        ⟨hsplit.1, (bang_contains_iff _ _).mpr hkk_not_append⟩

/-- Claim C2 witness: concrete two-candidate runs for each pipeline in which
the first publish fails and the second succeeds, with all hypotheses
discharged by evaluation. -/
theorem claim2_witness :
    (mainBookmarks { syncedUrls := [], lastSync := none }
        (.api true (some [⟨some "<https://a/1> and <https://a/2>", none, none, none⟩]))
        (fun u => u != "https://a/1") "t"
      = .ok { state := { syncedUrls := ["https://a/2"], lastSync := some "t" },
              synced := 1 } ∧
      ("https://a/1" : String) ∉ (["https://a/2"] : List String) ∧
      ("https://a/1" : String) ∈ (["https://a/1"] : List String)) ∧
    (mainBooks { syncedBooks := [], lastSync := none }
        (.api true (some [⟨some "Dune by Frank Herbert", none, none, none⟩,
          ⟨some "Emma by Jane Austen", none, none, none⟩]))
        (fun b => bookKey b != "dune|frank herbert") "t"
      = .ok { state := { syncedBooks := ["emma|jane austen"], lastSync := some "t" },
              synced := 1 } ∧
      ("dune|frank herbert" : String) ∉ (["emma|jane austen"] : List String) ∧
      ({ title := "Dune", author := some "Frank Herbert" } : Book)
        ∈ ([{ title := "Dune", author := some "Frank Herbert" }] : List Book)) := by
  constructor
  · exact claim2_partial_failure_isolation.1
      { syncedUrls := [], lastSync := none }
      [⟨some "<https://a/1> and <https://a/2>", none, none, none⟩]
      (fun u => u != "https://a/1") "t" 0 (by decide) (by decide)
  · exact claim2_partial_failure_isolation.2
      { syncedBooks := [], lastSync := none }
      [⟨some "Dune by Frank Herbert", none, none, none⟩,
        ⟨some "Emma by Jane Austen", none, none, none⟩]
      (fun b => bookKey b != "dune|frank herbert") "t" 0 (by decide) (by decide)

/-- Claim C1: idempotence of the sync run.  With a fixed upstream message
list and no intervening destination changes, running the pipeline twice
publishes each identity key at most once across the two runs (the combined
success list counts every key at most once), and when every publish of the
first run succeeded, the second run's diffed candidate list is empty — every
key published in the first run is in the persisted state and is filtered out
in the Diffing step, so the second run attempts zero publishes.  Holds for
both pipelines. -/
theorem claim1_idempotent_rerun :
    (∀ (s0 : BookmarkState) (msgs : List RawMessage) (pub1 pub2 : String → Bool)
      (now1 now2 : String),
      let urls := extractUrls msgs
      let new1 := urls.filter fun u => !s0.syncedUrls.contains u
      let succ1 := publishLoop pub1 new1
      let s1 : BookmarkState :=
        { syncedUrls := s0.syncedUrls ++ succ1, lastSync := some now1 }
      let new2 := urls.filter fun u => !s1.syncedUrls.contains u
      mainBookmarks s0 (.api true (some msgs)) pub1 now1
        = .ok { state := s1, synced := succ1.length } ∧
      mainBookmarks s1 (.api true (some msgs)) pub2 now2
        = .ok { state := { syncedUrls := s1.syncedUrls ++ publishLoop pub2 new2,
                           lastSync := some now2 },
                synced := (publishLoop pub2 new2).length } ∧
      (∀ u, (succ1 ++ publishLoop pub2 new2).count u ≤ 1) ∧
      ((∀ u ∈ new1, pub1 u = true) → new2 = [])) ∧
    (∀ (s0 : BooksState) (msgs : List RawMessage) (pub1 pub2 : Book → Bool)
      (now1 now2 : String),
      let books := extractBooks msgs
      let new1 := books.filter fun b => !s0.syncedBooks.contains (bookKey b)
      let succ1 := booksPublishLoop pub1 new1
      let s1 : BooksState :=
        { syncedBooks := s0.syncedBooks ++ succ1, lastSync := some now1 }
      let new2 := books.filter fun b => !s1.syncedBooks.contains (bookKey b)
      mainBooks s0 (.api true (some msgs)) pub1 now1
        = .ok { state := s1, synced := succ1.length } ∧
      mainBooks s1 (.api true (some msgs)) pub2 now2
        = .ok { state := { syncedBooks := s1.syncedBooks ++ booksPublishLoop pub2 new2,
                           lastSync := some now2 },
                synced := (booksPublishLoop pub2 new2).length } ∧
      (∀ kk, (succ1 ++ booksPublishLoop pub2 new2).count kk ≤ 1) ∧
      ((∀ b ∈ new1, pub1 b = true) → new2 = [])) := by
  constructor
  · intro s0 msgs pub1 pub2 now1 now2 urls new1 succ1 s1 new2
    have hnd1 : new1.Nodup := (extractUrls_nodup msgs).filter _
    have hnd2 : new2.Nodup := (extractUrls_nodup msgs).filter _
    have hsub1 : List.Sublist succ1 new1 := by
      rw [show succ1 = publishLoop pub1 new1 from rfl, publishLoop_eq_filter]
      exact List.filter_sublist new1
    have hsub2 : List.Sublist (publishLoop pub2 new2) new2 := by
      rw [publishLoop_eq_filter]
      exact List.filter_sublist new2
    refine ⟨rfl, rfl, ?_, ?_⟩
    · intro u
      rw [List.count_append]
      by_cases hu : u ∈ succ1
      · have h1 : succ1.count u ≤ 1 :=
          le_trans (hsub1.count_le u) (List.nodup_iff_count_le_one.mp hnd1 u)
        have hu_s1 : u ∈ s1.syncedUrls := List.mem_append_right _ hu
        have hu_not2 : u ∉ new2 := by
          intro hmem
          exact (bang_contains_iff _ _).mp (List.mem_filter.mp hmem).2 hu_s1
        have h2 : (publishLoop pub2 new2).count u = 0 :=
          List.count_eq_zero_of_not_mem fun hmem => hu_not2 (hsub2.subset hmem)
        omega
      · have h1 : succ1.count u = 0 := List.count_eq_zero_of_not_mem hu
        have h2 : (publishLoop pub2 new2).count u ≤ 1 :=
          le_trans (hsub2.count_le u) (List.nodup_iff_count_le_one.mp hnd2 u)
        omega
    · intro hall
      have hsucc : succ1 = new1 := publishLoop_of_all_true pub1 new1 hall
      refine List.filter_eq_nil_iff.mpr ?_
      intro u hu
      simp only [bang_contains_iff, not_not]
      by_cases h0 : u ∈ s0.syncedUrls
      · exact List.mem_append_left _ h0
      · refine List.mem_append_right _ ?_
        rw [hsucc]
        exact List.mem_filter.mpr ⟨hu, (bang_contains_iff _ _).mpr h0⟩
  · intro s0 msgs pub1 pub2 now1 now2 books new1 succ1 s1 new2
    have hkeys_nd : ((extractBooks msgs).map bookKey).Nodup := extractBooks_keys_nodup msgs
    have hnd1 : (new1.map bookKey).Nodup := by
      rw [show new1 = (extractBooks msgs).filter
          (fun b => !s0.syncedBooks.contains (bookKey b)) from rfl,
        map_key_filter_comm (fun s => !s0.syncedBooks.contains s)]
      exact hkeys_nd.filter _
    have hnd2 : (new2.map bookKey).Nodup := by
      rw [show new2 = (extractBooks msgs).filter
          (fun b => !s1.syncedBooks.contains (bookKey b)) from rfl,
        map_key_filter_comm (fun s => !s1.syncedBooks.contains s)]
      exact hkeys_nd.filter _
    have hsub1 : List.Sublist succ1 (new1.map bookKey) := by
      rw [show succ1 = booksPublishLoop pub1 new1 from rfl, booksPublishLoop_eq_filter]
      exact (List.filter_sublist new1).map bookKey
    have hsub2 : List.Sublist (booksPublishLoop pub2 new2) (new2.map bookKey) := by
      rw [booksPublishLoop_eq_filter]
      exact (List.filter_sublist new2).map bookKey
    refine ⟨rfl, rfl, ?_, ?_⟩
    · intro kk
      rw [List.count_append]
      by_cases hkk : kk ∈ succ1
      · have h1 : succ1.count kk ≤ 1 :=
          le_trans (hsub1.count_le kk) (List.nodup_iff_count_le_one.mp hnd1 kk)
        have hkk_s1 : kk ∈ s1.syncedBooks := List.mem_append_right _ hkk
        have h2 : (booksPublishLoop pub2 new2).count kk = 0 := by
          refine List.count_eq_zero_of_not_mem fun hmem => ?_
          rcases List.mem_map.mp (hsub2.subset hmem) with ⟨b, hb, hbk⟩
          exact (bang_contains_iff _ _).mp (List.mem_filter.mp hb).2 (hbk ▸ hkk_s1)
        omega
      · have h1 : succ1.count kk = 0 := List.count_eq_zero_of_not_mem hkk
        have h2 : (booksPublishLoop pub2 new2).count kk ≤ 1 :=
          le_trans (hsub2.count_le kk) (List.nodup_iff_count_le_one.mp hnd2 kk)
        omega
    · intro hall
      have hsucc : succ1 = new1.map bookKey := booksPublishLoop_of_all_true pub1 new1 hall
      refine List.filter_eq_nil_iff.mpr ?_
      intro b hb
      simp only [bang_contains_iff, not_not]
      by_cases h0 : bookKey b ∈ s0.syncedBooks
      · exact List.mem_append_left _ h0
      · refine List.mem_append_right _ ?_
        rw [hsucc]
        exact List.mem_map_of_mem bookKey
          (List.mem_filter.mpr ⟨hb, (bang_contains_iff _ _).mpr h0⟩)

/-- Claim C1 witness: a concrete double run of each pipeline with an
all-accepting destination; the second run publishes nothing. -/
theorem claim1_witness :
    (mainBookmarks { syncedUrls := [], lastSync := none }
        (.api true (some [⟨some "<https://a/1>", none, none, none⟩]))
        (fun _ => true) "t1"
      = .ok { state := { syncedUrls := ["https://a/1"], lastSync := some "t1" },
              synced := 1 } ∧
     mainBookmarks { syncedUrls := ["https://a/1"], lastSync := some "t1" }
        (.api true (some [⟨some "<https://a/1>", none, none, none⟩]))
        (fun _ => true) "t2"
      = .ok { state := { syncedUrls := ["https://a/1"], lastSync := some "t2" },
              synced := 0 } ∧
     (∀ u : String, (["https://a/1"] : List String).count u ≤ 1) ∧
     ([] : List String) = []) ∧
    (mainBooks { syncedBooks := [], lastSync := none }
        (.api true (some [⟨some "Dune by Frank Herbert", none, none, none⟩]))
        (fun _ => true) "t1"
      = .ok { state := { syncedBooks := ["dune|frank herbert"], lastSync := some "t1" },
              synced := 1 } ∧
     mainBooks { syncedBooks := ["dune|frank herbert"], lastSync := some "t1" }
        (.api true (some [⟨some "Dune by Frank Herbert", none, none, none⟩]))
        (fun _ => true) "t2"
      = .ok { state := { syncedBooks := ["dune|frank herbert"], lastSync := some "t2" },
              synced := 0 } ∧
     (∀ kk : String, (["dune|frank herbert"] : List String).count kk ≤ 1) ∧
     ([] : List Book) = []) := by
  constructor
  · have h := claim1_idempotent_rerun.1 { syncedUrls := [], lastSync := none }
      [⟨some "<https://a/1>", none, none, none⟩] (fun _ => true) (fun _ => true) "t1" "t2"
    exact ⟨h.1, h.2.1, h.2.2.1, h.2.2.2 (by decide)⟩
  · have h := claim1_idempotent_rerun.2 { syncedBooks := [], lastSync := none }
      [⟨some "Dune by Frank Herbert", none, none, none⟩] (fun _ => true) (fun _ => true)
      "t1" "t2"
    exact ⟨h.1, h.2.1, h.2.2.1, h.2.2.2 (by decide)⟩

/-- Claim C6 counterexample: the label of a `<url|label>` link is never used
as a title.  The spec's own example text yields the bare URL string only —
the same output as with any other label — and the Micropub form body built
for it carries only `h=entry` and `bookmark-of`, no title field; so no
candidate `{ url, title: "Cool Article" }` is produced anywhere. -/
theorem claim6_counterexample :
    extractUrls [⟨some "Check this out <https://example.com/a|Cool Article>",
      none, none, none⟩] = ["https://example.com/a"] ∧
    extractUrls [⟨some "Check this out <https://example.com/a|Other Label>",
      none, none, none⟩] = ["https://example.com/a"] ∧
    createMicroblogBookmarkParams "https://example.com/a"
      = [("h", "entry"), ("bookmark-of", "https://example.com/a")] :=
  ⟨by decide, by decide, rfl⟩

/-- Claim C6 amended: for a bracket-delimited link `<url|label>` the
extractor produces the bare URL as the candidate, discarding the label
entirely (the regex consumes it but the script never reads the capture);
candidates have no title and the publish request carries none. -/
theorem claim6_label_discarded (body label : List Char)
    (hbody : body ≠ [] ∧ ∀ c ∈ body, c ≠ '>' ∧ c ≠ '|')
    (hlabel : label ≠ [] ∧ ∀ c ∈ label, c ≠ '>')
    (hslack : jsIncludes "slack.com"
      (String.mk ('h' :: 't' :: 't' :: 'p' :: 's' :: ':' :: '/' :: '/' :: body))
      = false) :
    extractUrls [⟨some (String.mk ('<' :: 'h' :: 't' :: 't' :: 'p' :: 's' :: ':'
        :: '/' :: '/' :: (body ++ '|' :: (label ++ ['>'])))), none, none, none⟩]
      = [String.mk ('h' :: 't' :: 't' :: 'p' :: 's' :: ':' :: '/' :: '/' :: body)] := by
  have hbodyok : ∀ c ∈ body, urlBodyChar c = true := fun c hc => by
    simp [urlBodyChar, (hbody.2 c hc).1, (hbody.2 c hc).2]
  have htw1 : (body ++ '|' :: (label ++ ['>'])).takeWhile urlBodyChar = body :=
    takeWhile_all_stop _ _ _ _ hbodyok (by decide)
  have hdw1 : (body ++ '|' :: (label ++ ['>'])).dropWhile urlBodyChar
      = '|' :: (label ++ ['>']) :=
    dropWhile_all_stop _ _ _ _ hbodyok (by decide)
  have hlabok : ∀ c ∈ label, (fun c => ¬ c = '>' : Char → Bool) c = true := fun c hc => by
    simp [hlabel.2 c hc]
  have htw2 : (label ++ ['>']).takeWhile (fun c => ¬ c = '>') = label :=
    takeWhile_all_stop _ _ '>' [] hlabok (by decide)
  have hdw2 : (label ++ ['>']).dropWhile (fun c => ¬ c = '>') = '>' :: [] :=
    dropWhile_all_stop _ _ '>' [] hlabok (by decide)
  have hbe : body.isEmpty = false := by
    cases body with
    | nil => exact absurd rfl hbody.1
    | cons c cs => rfl
  have hle : label.isEmpty = false := by
    cases label with
    | nil => exact absurd rfl hlabel.1
    | cons c cs => rfl
  have htl : tryLink ('h' :: 't' :: 't' :: 'p' :: 's' :: ':' :: '/' :: '/'
      :: (body ++ '|' :: (label ++ ['>'])))
      = some (String.mk (['h', 't', 't', 'p', 's', ':', '/', '/'] ++ body), []) := by
    simp only [tryLink, httpProtoSplit, htw1, hdw1, hbe, htw2, hdw2, hle,
      Bool.false_eq_true, if_false]
  simp only [extractUrls, rawUrls, Option.getD_some]
  simp only [scanUrls, List.length_cons, scanUrlsFuel, htl, scanUrlsFuel_nil,
    if_pos rfl]
  simp only [List.filter_cons, List.filter_nil, List.cons_append, List.nil_append,
    hslack, Bool.not_false, if_pos rfl, List.append_nil]
  simp [List.filter_cons, hslack, dedupFirst, dedupFirstBy]

/-- Claim C6 witness: the amended statement at the spec's example input,
hypotheses discharged by evaluation. -/
theorem claim6_witness :
    (("example.com/a".data ≠ [] ∧ ∀ c ∈ "example.com/a".data, c ≠ '>' ∧ c ≠ '|') ∧
     ("Cool Article".data ≠ [] ∧ ∀ c ∈ "Cool Article".data, c ≠ '>') ∧
     jsIncludes "slack.com" (String.mk ('h' :: 't' :: 't' :: 'p' :: 's' :: ':' :: '/'
       :: '/' :: "example.com/a".data)) = false) ∧
    extractUrls [⟨some (String.mk ('<' :: 'h' :: 't' :: 't' :: 'p' :: 's' :: ':'
        :: '/' :: '/' :: ("example.com/a".data ++ '|' :: ("Cool Article".data ++ ['>'])))),
      none, none, none⟩]
      = [String.mk ('h' :: 't' :: 't' :: 'p' :: 's' :: ':' :: '/' :: '/'
          :: "example.com/a".data)] :=
  ⟨⟨by decide, by decide, by decide⟩,
    claim6_label_discarded "example.com/a".data "Cool Article".data
      (by decide) (by decide) (by decide)⟩

/-- Claim C7 counterexample: the title group of
`/^(.+?)\s+by\s+(.+)$/i` is lazy, not greedy — with several ` by `
occurrences the SHORTEST prefix becomes the title ("A", not "A by B"), the
remainder including later ` by ` becomes the author; and the length guard is
`cleaned.length < 200`, so a 200-character separator-free text is rejected
even though it is not "over 200 characters". -/
theorem claim7_counterexample :
    parseBookFromMessage "A by B by C" = some { title := "A", author := some "B by C" } ∧
    parseBookFromMessage "A by B by C" ≠ some { title := "A by B", author := some "C" } ∧
    parseBookFromMessage (String.mk (List.replicate 200 'a')) = none :=
  ⟨by decide, by decide, by set_option maxRecDepth 40000 in decide⟩

/-- Claim C7 amended: the parser strips the known leading prefixes (book
emoji, "currently reading:", "reading:", "now reading:")
case-insensitively, then splits on a case-insensitive ` by ` separator with
the title group lazy — the shortest viable prefix becomes the title, the
rest (including any later ` by `) becomes the author; with no separator the
trimmed remainder is a title-only candidate exactly when its length is
positive and strictly below 200 (length 200 is already rejected). -/
theorem claim7_parse_contract :
    parseBookFromMessage "📚 Currently reading: Breakneck by Dan Wang"
      = some { title := "Breakneck", author := some "Dan Wang" } ∧
    parseBookFromMessage "Currently reading: Dune" = some { title := "Dune", author := none } ∧
    parseBookFromMessage "Reading: Dune" = some { title := "Dune", author := none } ∧
    parseBookFromMessage "Now reading: Dune" = some { title := "Dune", author := none } ∧
    parseBookFromMessage "A by B by C" = some { title := "A", author := some "B by C" } ∧
    parseBookFromMessage "" = none ∧
    parseBookFromMessage (String.mk (List.replicate 199 'a'))
      = some { title := String.mk (List.replicate 199 'a'), author := none } ∧
    parseBookFromMessage (String.mk (List.replicate 200 'a')) = none :=
  ⟨by decide, by decide, by decide, by decide, by decide, by decide,
    by set_option maxRecDepth 40000 in decide,
    by set_option maxRecDepth 40000 in decide⟩
